import Mathlib

/-!
Verification of the inference-orchestration and retrieval-memory core of the
Wishmaster desktop assistant (Rust sources under `src-tauri/src/`).

The Rust modules are shallowly embedded:

* `llm.rs` — model lifecycle (`load_model` / `unload_model` / `is_loaded`),
  temperature sampling (`sample_with_temperature`) and the token-generation
  loop (`generate`).  The llama.cpp runtime is external; its fallible calls
  are supplied as oracle functions collected in a record, and its greedy
  sampler is modelled by its documented argmax semantics.
* `commands.rs` — the `generate` Tauri command (event emission, the shared
  `STOP_GENERATION` cancellation flag, ChatML prompt construction) and
  `build_enriched_system_prompt` (context assembly).  Database reads are
  oracle functions.
* `embeddings.rs` — `cosine_similarity`, `semantic_search`, fingerprint
  hashing (`md5_hash`), `has_embedding` / `store_embedding` /
  `index_message`, and the f32 byte (de)serialization
  `floats_to_bytes` / `bytes_to_floats`.

Numeric modelling: `f32` values are idealized as real numbers where the
code computes with them (cosine similarity, logits as exact rationals for
the sampler), and as 32-bit patterns (`Nat < 2^32`) where the code only
moves their bytes (`floats_to_bytes` / `bytes_to_floats`).  Machine
integers are `Int`/`Nat`; the 128-bit wrapping multiplication of the FNV
fingerprint is taken `% 2^128`.
-/

namespace Llm

/-- Opaque handle standing for a loaded `LlamaModel` (external runtime object). -/
structure LlamaModel where
  ref : Nat
deriving DecidableEq, Repr

/-- The mutable lifecycle state held by the `MODEL` / `MODEL_PATH` /
`CONTEXT_SIZE` statics of `llm.rs`. -/
structure LlmState where
  model : Option LlamaModel
  model_path : Option String
  context_size : Nat
deriving DecidableEq, Repr

/-- Embeds `llm.rs::unload_model`: clears the model and its path; the stored
context size is not touched. -/
def unload_model (s : LlmState) : LlmState :=
  { s with model := none, model_path := none }

/-- Embeds `llm.rs::is_loaded`: the model slot is occupied. -/
def is_loaded (s : LlmState) : Bool :=
  s.model.isSome

/-- Embeds `llm.rs::load_model`.  `file_exists` is the filesystem probe
(`std::path::Path::exists`) and `load_from_file` the external
`LlamaModel::load_from_file` (its error already formatted to the string the
Rust code produces).  The `LOAD_MODEL_LOCK` exclusive section is implicit in
the sequential model.  Mirrors the source order: the current model is
unloaded (and a settling delay observed) *before* the existence check. -/
def load_model (file_exists : String → Bool)
    (load_from_file : String → Except String LlamaModel)
    (path : String) (context_length : Nat) (s : LlmState) :
    LlmState × Except String Unit :=
  -- Unload current model first to avoid GPU/memory conflicts when switching models
  let s1 := unload_model s
  -- Check if file exists
  if ¬ file_exists path then
    (s1, .error ("Model file not found: " ++ path))
  else
    match load_from_file path with
    | .error e => (s1, .error e)
    | .ok m =>
        ({ model := some m, model_path := some path, context_size := context_length },
         .ok ())

/-- Candidate token with its logit, the payload of a `LlamaTokenDataArray`
entry.  Logits are idealized as exact rationals. -/
structure TokenData where
  id : Int
  logit : ℚ
deriving DecidableEq, Repr

/-- One step of the greedy argmax scan: keep the candidate with the larger
logit, preferring the earlier one on ties. -/
def greedyStep (best : Option TokenData) (c : TokenData) : Option TokenData :=
  match best with
  | none => some c
  | some b => if c.logit > b.logit then some c else some b

/-- Models the external llama.cpp greedy sampler (`LlamaSampler::greedy()`)
by its documented semantics: select the candidate with the maximal logit,
keeping the first one on ties. -/
def greedy_select (candidates : List TokenData) : Option Int :=
  (candidates.foldl greedyStep none).map (fun t => t.id)

/-- Embeds `llm.rs::sample_with_temperature`.  For `temperature ≤ 0` the
greedy sampler is applied; otherwise the temperature/dist sampler chain is
the external randomized sampler `dist`, fed with the next seed from the
monotone `SEED_COUNTER`. -/
def sample_with_temperature (dist : Nat → List TokenData → Option Int)
    (seed : Nat) (candidates : List TokenData) (temperature : ℚ) : Option Int :=
  if temperature ≤ 0 then
    greedy_select candidates
  else
    dist seed candidates

end Llm

namespace Embeddings

/-- Little-endian byte expansion of one f32 bit pattern
(`f32::to_le_bytes` acting on the 32-bit representation). -/
def f32_to_le_bytes (w : Nat) : List Nat :=
  [w % 256, w / 256 % 256, w / (256 * 256) % 256, w / (256 * 256 * 256) % 256]

/-- Little-endian reassembly of one f32 bit pattern
(`f32::from_le_bytes` on the 32-bit representation). -/
def f32_from_le_bytes (b0 b1 b2 b3 : Nat) : Nat :=
  b0 % 256 + 256 * (b1 % 256) + (256 * 256) * (b2 % 256) + (256 * 256 * 256) * (b3 % 256)

/-- Embeds `embeddings.rs::floats_to_bytes`: flat-map each f32 (as its
32-bit pattern) to its little-endian bytes. -/
def floats_to_bytes (floats : List Nat) : List Nat :=
  floats.flatMap f32_to_le_bytes

/-- Embeds `embeddings.rs::bytes_to_floats`: `chunks_exact(4)` rebuilds one
f32 per 4-byte chunk; a trailing chunk of fewer than 4 bytes is dropped. -/
def bytes_to_floats : List Nat → List Nat
  | b0 :: b1 :: b2 :: b3 :: rest => f32_from_le_bytes b0 b1 b2 b3 :: bytes_to_floats rest
  | _ => []

end Embeddings

namespace Llm

/-- Substring test on character lists: some suffix of `s` starts with `pat`
(the semantics of Rust `str::contains` with a literal pattern). -/
def charsContains (s pat : List Char) : Bool :=
  (List.range (s.length + 1)).any (fun i => pat.isPrefixOf (s.drop i))

/-- Fuel-driven worker for `strReplaceAll`; the fuel is the length of the
remaining text, so the recursion is structural and the function reduces by
evaluation.  At each position the (nonempty) pattern is either consumed
whole and replaced, or one character is kept. -/
def replaceAuxChars (pat rep : List Char) : Nat → List Char → List Char
  | _, [] => []
  | 0, s => s
  | Nat.succ fuel, c :: rest =>
    if pat ≠ [] ∧ pat.isPrefixOf (c :: rest) then
      rep ++ replaceAuxChars pat rep fuel (rest.drop (pat.length - 1))
    else
      c :: replaceAuxChars pat rep fuel rest

/-- Semantics of Rust `str::replace` for a nonempty literal pattern: replace
all leftmost non-overlapping occurrences.  (The generation loop only ever
replaces the constant, nonempty stop sequences; for an empty pattern this
model returns the string unchanged.) -/
def strReplaceAll (s pat rep : String) : String :=
  String.mk (replaceAuxChars pat.data rep.data s.data.length s.data)

/-- Substring test on strings, wrapper of `charsContains`. -/
def strContains (s pat : String) : Bool :=
  charsContains s.data pat.data

/-- Embeds the `STOP_SEQUENCES` constant of `llm.rs` (ChatML format). -/
def STOP_SEQUENCES : List String :=
  ["<|im_end|>", "<|im_start|>", "</s>", "<|endoftext|>"]

/-- Oracle record for the external llama.cpp calls made by one run of
`llm.rs::generate`.  Step-indexed fields model the stateful context:
the outcome at loop iteration `k` is the oracle's value at `k`.
`sample` is the observed outcome of `sample_with_temperature`
(`none` models a sampler failure). -/
structure LlmRuntime where
  newContext : Except String Unit
  strToToken : String → Except String (List Int)
  batchAddPrompt : Except String Unit
  decodePrompt : Except String Unit
  sample : Nat → Option Int
  isEog : Int → Bool
  tokenToPiece : Nat → Int → Except String String
  batchAddStep : Nat → Except String Unit
  decodeStep : Nat → Except String Unit

/-- The token-generation loop of `llm.rs::generate` (`for _ in 0..max_tokens`),
embedded with explicit fuel (remaining iterations), the iteration index `k`,
the `accumulated` buffer, and the caller's callback state `s`.  The callback
returns `false` to request cooperative stop.  Mirrors the source: sampler
failure and end-of-generation token break with success; a token-to-piece or
batch-add or decode failure returns the formatted error; the cleaned
fragment is passed to the callback only when nonempty; the stop-sequence
check uses the accumulated buffer. -/
def genLoop {σ : Type} (rt : LlmRuntime) (cb : σ → String → σ × Bool) :
    Nat → Nat → String → σ → σ × Except String Unit
  | 0, _, _, s => (s, .ok ())
  | Nat.succ fuel, k, accumulated, s =>
    match rt.sample k with
    | none => (s, .ok ())
    | some new_token =>
      if rt.isEog new_token then (s, .ok ())
      else
        match rt.tokenToPiece k new_token with
        | .error e => (s, .error ("Token to string error: " ++ e))
        | .ok token_str =>
          let accumulated' := accumulated ++ token_str
          let should_stop := STOP_SEQUENCES.any (fun seq => strContains accumulated' seq)
          let clean_token := STOP_SEQUENCES.foldl (fun acc seq => strReplaceAll acc seq "") token_str
          let es := if clean_token = "" then (s, true) else cb s clean_token
          if es.2 = false then (es.1, .ok ())
          else if should_stop then (es.1, .ok ())
          else
            match rt.batchAddStep k with
            | .error e => (es.1, .error ("Batch add error: " ++ e))
            | .ok _ =>
              match rt.decodeStep k with
              | .error e => (es.1, .error ("Decode error: " ++ e))
              | .ok _ => genLoop rt cb fuel (k + 1) accumulated' es.1

/-- Embeds `llm.rs::generate`.  `loaded` is the `is_loaded()` observation;
the context-size read, thread counts and logging have no observable effect
and are omitted.  Prefill errors are surfaced with the messages the source
formats; then the sampling loop runs for at most `max_tokens` iterations. -/
def generate {σ : Type} (rt : LlmRuntime) (loaded : Bool) (prompt : String)
    (max_tokens : Nat) (cb : σ → String → σ × Bool) (s₀ : σ) :
    σ × Except String Unit :=
  if ¬ loaded then (s₀, .error "Model not loaded")
  else
    match rt.newContext with
    | .error e => (s₀, .error ("Failed to create context: " ++ e))
    | .ok _ =>
      match rt.strToToken prompt with
      | .error e => (s₀, .error ("Tokenization error: " ++ e))
      | .ok tokens =>
        if tokens = [] then (s₀, .error "Empty prompt after tokenization")
        else
          match rt.batchAddPrompt with
          | .error e => (s₀, .error ("Batch add error: " ++ e))
          | .ok _ =>
            match rt.decodePrompt with
            | .error e => (s₀, .error ("Decode error: " ++ e))
            | .ok _ => genLoop rt cb max_tokens 0 "" s₀

/-- A concrete runtime whose sampler fails immediately while every other
external call succeeds; exercises the generation loop at specific inputs. -/
def sampleFailRuntime : LlmRuntime where
  newContext := .ok ()
  strToToken := fun _ => .ok [1]
  batchAddPrompt := .ok ()
  decodePrompt := .ok ()
  sample := fun _ => none
  isEog := fun _ => false
  tokenToPiece := fun _ _ => .ok "x"
  batchAddStep := fun _ => .ok ()
  decodeStep := fun _ => .ok ()

/-- A concrete runtime that samples token 1 and detokenizes it to `"Hi"` at
every iteration, with every external call succeeding. -/
def steadyRuntime : LlmRuntime where
  newContext := .ok ()
  strToToken := fun _ => .ok [1]
  batchAddPrompt := .ok ()
  decodePrompt := .ok ()
  sample := fun _ => some 1
  isEog := fun _ => false
  tokenToPiece := fun _ _ => .ok "Hi"
  batchAddStep := fun _ => .ok ()
  decodeStep := fun _ => .ok ()

end Llm

namespace Commands

/-- One streamed event of the `generate` command: a text fragment
(`llm-token`) or the terminal `llm-finished` signal. -/
inductive Event where
  | token (s : String)
  | finished
deriving DecidableEq, Repr

/-- One entry of the `history` argument of the `generate` command
(`commands.rs::HistoryMessage`). -/
structure HistoryMessage where
  content : String
  is_user : Bool
deriving DecidableEq, Repr

/-- State threaded through the fragment callback of the `generate` command:
the current value of the `STOP_GENERATION` atomic, the events emitted so
far (in order), and the number of callback invocations (= flag reads)
performed. -/
structure CmdState where
  flag : Bool
  events : List Event
  reads : Nat
deriving DecidableEq, Repr

/-- The fragment callback the `generate` command passes to `llm::generate`.
`stopReq r` says whether `stop_generation` (which stores `true` into
`STOP_GENERATION`) was called between the `r-1`-st and `r`-th flag read;
the read therefore observes the accumulated disjunction.  On an observed
`true` the callback returns `false` without emitting; otherwise it emits
the fragment as an `llm-token` event and continues. -/
def cmdCallback (stopReq : Nat → Bool) (st : CmdState) (tok : String) :
    CmdState × Bool :=
  let f := st.flag || stopReq st.reads
  if f then
    ({ flag := f, events := st.events, reads := st.reads + 1 }, false)
  else
    ({ flag := f, events := st.events ++ [Event.token tok], reads := st.reads + 1 }, true)

/-- The ChatML prompt assembled by the `generate` command: system turn,
history turns, the current user turn, and the open assistant turn. -/
def chatml_prompt (system_prompt : String) (history : List HistoryMessage)
    (prompt : String) : String :=
  "<|im_start|>system\n" ++ system_prompt ++ "<|im_end|>\n"
    ++ history.foldl
        (fun acc msg =>
          acc ++ "<|im_start|>" ++ (if msg.is_user then "user" else "assistant")
            ++ "\n" ++ msg.content ++ "<|im_end|>\n")
        ""
    ++ "<|im_start|>user\n" ++ prompt ++ "<|im_end|>\n"
    ++ "<|im_start|>assistant\n"

/-- The callback state a fresh `generate` command starts from:
`STOP_GENERATION.store(false)` overwrites whatever value `flag₀` the atomic
held (e.g. from a stop request of a previous generation), no events, no
reads. -/
def initCmdState (_flag₀ : Bool) : CmdState :=
  { flag := false, events := [], reads := 0 }

/-- Embeds the generation part of the `generate` Tauri command
(`commands.rs`, native-llm build): reset the cancellation flag, build the
ChatML prompt, run `llm::generate` with the emitting callback, then emit the
terminal `llm-finished` event on both the success and the error branch, and
return `llm::generate`'s result.  Output: the emitted event sequence and the
command's result. -/
def command_generate (rt : Llm.LlmRuntime) (stopReq : Nat → Bool) (flag₀ : Bool)
    (loaded : Bool) (system_prompt : String) (history : List HistoryMessage)
    (prompt : String) (max_tokens : Nat) :
    List Event × Except String Unit :=
  let full_prompt := chatml_prompt system_prompt history prompt
  let out := Llm.generate rt loaded full_prompt max_tokens (cmdCallback stopReq)
    (initCmdState flag₀)
  match out.2 with
  | .ok _ => (out.1.events ++ [Event.finished], .ok ())
  | .error e => (out.1.events ++ [Event.finished], .error e)

end Commands

namespace Embeddings

/-- Embeds `embeddings.rs::md5_hash`: FNV-1a over the UTF-8 bytes of the
content, on 128-bit wrapping arithmetic (`u128` modelled as `Nat % 2^128`). -/
def md5_hash (content : String) : Nat :=
  (content.data.flatMap String.utf8EncodeChar).foldl
    (fun hash byte => ((hash ^^^ byte.toNat) * 0x100000001b3) % 2 ^ 128)
    0xcbf29ce484222325

/-- Lowercase hex rendering of the fingerprint (`format!("\x7b:x\x7d", …)`). -/
def hashHex (n : Nat) : String :=
  String.mk (Nat.toDigits 16 n)

/-- One row of the `embeddings` table
(`(source_type, source_id, content_hash, vector, created_at)`). -/
structure EmbRow where
  source_type : String
  source_id : Int
  content_hash : String
  vector : List Nat
  created_at : Int
deriving DecidableEq, Repr

/-- Embeds `embeddings.rs::has_embedding`: a row with this source type, id
and content fingerprint exists (`SELECT COUNT(*) > 0 …`). -/
def has_embedding (db : List EmbRow) (source_type : String) (source_id : Int)
    (content : String) : Bool :=
  let content_hash := hashHex (md5_hash content)
  db.any (fun r =>
    decide (r.source_type = source_type) && decide (r.source_id = source_id)
      && decide (r.content_hash = content_hash))

/-- Embeds `embeddings.rs::store_embedding`: `INSERT OR REPLACE` of the row
keyed by `(source_type, source_id)` — the unique key of the table is
modelled from spec §6's persisted layout (upsert by `(source_kind,
source_id)`); the `CREATE TABLE` statement itself is not among the sources.
The vector is persisted as its little-endian f32 bytes. -/
def store_embedding (db : List EmbRow) (source_type : String) (source_id : Int)
    (content : String) (vector : List Nat) (now : Int) : List EmbRow :=
  let row : EmbRow :=
    { source_type := source_type, source_id := source_id,
      content_hash := hashHex (md5_hash content),
      vector := floats_to_bytes vector, created_at := now }
  db.filter (fun r =>
      ! (decide (r.source_type = source_type) && decide (r.source_id = source_id)))
    ++ [row]

/-- Embeds `embeddings.rs::index_message`.  `embed_passage` is the external
embedding model (returning f32 bit patterns).  Besides the resulting
database (or error), the model returns how many times the embedding
computation was invoked, to express the claims about re-embedding. -/
def index_message (embed_passage : String → Except String (List Nat))
    (db : List EmbRow) (message_id : Int) (content : String) (now : Int) :
    Except String (List EmbRow) × Nat :=
  if has_embedding db "message" message_id content then
    (.ok db, 0)
  else
    match embed_passage content with
    | .error e => (.error e, 1)
    | .ok vector =>
      (.ok (store_embedding db "message" message_id content vector now), 1)

/-- Embeds `embeddings.rs::cosine_similarity` with f32 arithmetic idealized
over the reals: `0.0` for mismatched lengths or empty input, `0.0` when
either norm is zero, otherwise `dot / (‖a‖·‖b‖)`. -/
noncomputable def cosine_similarity (a b : List ℝ) : ℝ :=
  if a.length ≠ b.length ∨ a = [] then 0
  else
    let dot := ((a.zip b).map (fun p => p.1 * p.2)).sum
    let norm_a := Real.sqrt ((a.map (fun x => x * x)).sum)
    let norm_b := Real.sqrt ((b.map (fun x => x * x)).sum)
    if norm_a = 0 ∨ norm_b = 0 then 0
    else dot / (norm_a * norm_b)

/-- One `SELECT`ed row of the embeddings table as `semantic_search` consumes
it, with the stored vector already decoded from its bytes (the byte-level
decoding is `bytes_to_floats`, treated separately at the bit level). -/
structure SRow where
  id : Int
  source_type : String
  source_id : Int
  vector : List ℝ

/-- One search hit `(id, source_type, source_id, similarity)`. -/
structure SHit where
  id : Int
  source_type : String
  source_id : Int
  similarity : ℝ

/-- Embeds `embeddings.rs::semantic_search`: optionally restrict to one
source type (the SQL `WHERE`), score every candidate by cosine similarity
against the query vector, keep scores `≥ min_similarity`, sort descending by
similarity (`sort_by` with the reversed comparator; stable merge sort), and
truncate to `limit`. -/
noncomputable def semantic_search (rows : List SRow) (query_vector : List ℝ)
    (source_type : Option String) (limit : Nat) (min_similarity : ℝ) :
    List SHit :=
  let selected : List SRow :=
    match source_type with
    | some st => rows.filter (fun r => decide (r.source_type = st))
    | none => rows
  let results : List SHit :=
    (selected.map (fun r =>
      ({ id := r.id, source_type := r.source_type, source_id := r.source_id,
         similarity := cosine_similarity query_vector r.vector } : SHit))).filter
      (fun h => decide (min_similarity ≤ h.similarity))
  let sorted := results.mergeSort (fun a b => decide (b.similarity ≤ a.similarity))
  sorted.take limit

/-- Embeds `embeddings.rs::SearchResult` (similarity idealized as a real). -/
structure SearchResult where
  source_type : String
  source_id : Int
  content : String
  similarity : ℝ

end Embeddings

namespace Commands

/-- Embeds `database.rs::MemoryEntry`. -/
structure MemoryEntry where
  id : Int
  content : String
  category : String
  source_session_id : Int
  source_message_id : Int
  importance : Int
  created_at : Int

/-- Embeds `database.rs::UserPersona` (`avg_message_length` is an f32,
idealized as a rational; it is not read by the context assembler). -/
structure UserPersona where
  id : Int
  writing_style : String
  avg_message_length : ℚ
  common_phrases : String
  topics_of_interest : String
  language : String
  emoji_usage : String
  tone : String
  messages_analyzed : Int
  last_updated : Int

/-- Embeds `database.rs::ExportMessage` as used by `search_all_messages`. -/
structure ExportMessage where
  id : Int
  session_id : Int
  session_title : String
  content : String
  is_user : Bool
  timestamp : Int

/-- Oracle record for the database and retrieval calls made by
`build_enriched_system_prompt`.  `find_rag_context` is wrapped in the
`with_connection` result, hence the nested `Except`. -/
structure DbEnv where
  get_top_memories : Int → Except String (List MemoryEntry)
  find_rag_context : String → Int → Except String (Except String (List Embeddings.SearchResult))
  search_all_messages : String → Int → Except String (List ExportMessage)
  get_user_persona : Except String (Option UserPersona)

/-- First `content.chars().take(n)` characters as a string. -/
def takeChars (s : String) (n : Nat) : String :=
  String.mk (s.data.take n)

/-- The fixed instruction suffix appended right after the base prompt. -/
def SYSTEM_SUFFIX : String :=
  "\nТы помнишь ВСЕ предыдущие разговоры и используешь эту информацию."
    ++ " Отвечай только текстом ответа пользователю — без процентов, сходства и метаданных.\n\n"

/-- The facts section (top-5 memories) as rendered by the assembler, `""`
when the source fails or yields no rows. -/
def factsSection (db : DbEnv) : String :=
  match db.get_top_memories 5 with
  | .ok memories =>
    if memories.isEmpty then ""
    else
      "=== ВАЖНЫЕ ФАКТЫ ИЗ ПАМЯТИ ===\n"
        ++ String.join (memories.map (fun mem =>
            "- [" ++ mem.category ++ "] " ++ mem.content ++ "\n"))
        ++ "\n"
  | .error _ => ""

/-- The label shown for a RAG hit's source kind. -/
def ragSourceLabel (source_type : String) : String :=
  if source_type = "memory" then "Память"
  else if source_type = "message" then "Сообщение"
  else source_type

/-- The hits the semantic section displays: similarity strictly above the
0.5 display floor, at most 3. -/
noncomputable def ragRelevant (results : List Embeddings.SearchResult) :
    List Embeddings.SearchResult :=
  (results.filter (fun r => decide ((0.5 : ℝ) < r.similarity))).take 3

/-- The semantic-search (RAG) section, `""` when the lookup fails at either
layer or no hit passes the display floor. -/
noncomputable def semanticSection (db : DbEnv) (prompt : String) : String :=
  match db.find_rag_context prompt 5 with
  | .ok (.ok results) =>
    let relevant := ragRelevant results
    if relevant.isEmpty then ""
    else
      "=== РЕЛЕВАНТНЫЙ КОНТЕКСТ (для справки) ===\n"
        ++ String.join (relevant.map (fun result =>
            "[" ++ ragSourceLabel result.source_type ++ "] "
              ++ takeChars result.content 200 ++ "\n"))
        ++ "\n"
  | _ => ""

/-- The keywords the fallback search derives from the prompt: whitespace
words longer than 3 UTF-8 bytes, first 3 of them. -/
def promptKeywords (prompt : String) : List String :=
  (((prompt.split (fun c => c.isWhitespace)).filter (fun w => ¬ w = "")).filter
      (fun w => w.utf8ByteSize > 3)).take 3

/-- The keyword-fallback section (full-text hits from other sessions), `""`
when there are no usable keywords, the search fails, or every hit is from
the current session. -/
def keywordSection (db : DbEnv) (prompt : String) (session_id : Int) : String :=
  let keywords := promptKeywords prompt
  if keywords.isEmpty then ""
  else
    match db.search_all_messages (String.intercalate " OR " keywords) 3 with
    | .ok relevant =>
      let other := relevant.filter (fun m => decide (m.session_id ≠ session_id))
      if other.isEmpty then ""
      else
        "=== КОНТЕКСТ ИЗ ДРУГИХ ЧАТОВ ===\n"
          ++ String.join (other.map (fun msg =>
              "[" ++ msg.session_title ++ "] "
                ++ (if msg.is_user then "Пользователь" else "Ассистент")
                ++ ": " ++ takeChars msg.content 200 ++ "\n"))
          ++ "\n"
    | .error _ => ""

/-- The persona section, `""` when no persona row exists or the read fails. -/
def personaSection (db : DbEnv) : String :=
  match db.get_user_persona with
  | .ok (some persona) =>
    "=== ПРОФИЛЬ ПОЛЬЗОВАТЕЛЯ ===\nСтиль: " ++ persona.writing_style
      ++ ", Тон: " ++ persona.tone ++ ", Язык: " ++ persona.language ++ "\n\n"
  | _ => ""

/-- Embeds `commands.rs::build_enriched_system_prompt` (embeddings feature
enabled), mirroring the source's sequence of appends: base prompt, fixed
suffix, then the four optional sections, each appended only when its data
source succeeds with non-empty (post-filter) data, with every failure branch
leaving the accumulated string untouched. -/
noncomputable def build_enriched_system_prompt (db : DbEnv) (base_prompt : String)
    (prompt : String) (session_id : Int) : String :=
  let enriched := base_prompt ++ SYSTEM_SUFFIX
  let enriched :=
    match db.get_top_memories 5 with
    | .ok memories =>
      if memories.isEmpty then enriched
      else
        enriched ++ "=== ВАЖНЫЕ ФАКТЫ ИЗ ПАМЯТИ ===\n"
          ++ String.join (memories.map (fun mem =>
              "- [" ++ mem.category ++ "] " ++ mem.content ++ "\n"))
          ++ "\n"
    | .error _ => enriched
  let enriched :=
    match db.find_rag_context prompt 5 with
    | .ok (.ok results) =>
      let relevant := ragRelevant results
      if relevant.isEmpty then enriched
      else
        enriched ++ "=== РЕЛЕВАНТНЫЙ КОНТЕКСТ (для справки) ===\n"
          ++ String.join (relevant.map (fun result =>
              "[" ++ ragSourceLabel result.source_type ++ "] "
                ++ takeChars result.content 200 ++ "\n"))
          ++ "\n"
    | _ => enriched
  let enriched :=
    let keywords := promptKeywords prompt
    if keywords.isEmpty then enriched
    else
      match db.search_all_messages (String.intercalate " OR " keywords) 3 with
      | .ok relevant =>
        let other := relevant.filter (fun m => decide (m.session_id ≠ session_id))
        if other.isEmpty then enriched
        else
          enriched ++ "=== КОНТЕКСТ ИЗ ДРУГИХ ЧАТОВ ===\n"
            ++ String.join (other.map (fun msg =>
                "[" ++ msg.session_title ++ "] "
                  ++ (if msg.is_user then "Пользователь" else "Ассистент")
                  ++ ": " ++ takeChars msg.content 200 ++ "\n"))
            ++ "\n"
      | .error _ => enriched
  match db.get_user_persona with
  | .ok (some persona) =>
    enriched ++ "=== ПРОФИЛЬ ПОЛЬЗОВАТЕЛЯ ===\nСтиль: " ++ persona.writing_style
      ++ ", Тон: " ++ persona.tone ++ ", Язык: " ++ persona.language ++ "\n\n"
  | _ => enriched

/-- A database oracle in which every read succeeds but yields no data: no
memories, no RAG hits, no full-text matches, no persona. -/
def emptyDbEnv : DbEnv where
  get_top_memories := fun _ => .ok []
  find_rag_context := fun _ _ => .ok (.ok [])
  search_all_messages := fun _ _ => .ok []
  get_user_persona := .ok none

end Commands

/-! Helper lemmas shared by several claim theorems. -/

/-- Reassembling the little-endian bytes of a 32-bit pattern recovers it. -/
theorem f32_le_bytes_roundtrip (w : Nat) (h : w < 2 ^ 32) :
    Embeddings.f32_from_le_bytes (w % 256) (w / 256 % 256) (w / (256 * 256) % 256)
      (w / (256 * 256 * 256) % 256) = w := by
  unfold Embeddings.f32_from_le_bytes
  omega

/-- A byte list shorter than one f32 decodes to nothing. -/
theorem bytes_to_floats_short (extra : List Nat) (h : extra.length < 4) :
    Embeddings.bytes_to_floats extra = [] := by
  rcases extra with _ | ⟨a, _ | ⟨b, _ | ⟨c, _ | ⟨d, t⟩⟩⟩⟩ <;>
    simp [Embeddings.bytes_to_floats] at * <;> omega

/-- C10: serializing a vector of f32 values (as 32-bit patterns) to its
little-endian bytes and decoding the bytes back is the identity, even in
the presence of a trailing chunk of fewer than 4 extra bytes, which the
decoder silently drops (`chunks_exact(4)`); the decoder is a total
function.  With `extra = []` this is the exact round trip, so a stored
embedding vector reads back bitwise equal. -/
theorem c10_floats_bytes_roundtrip (v : List Nat) (extra : List Nat)
    (hv : ∀ x ∈ v, x < 2 ^ 32) (hex : extra.length < 4) :
    Embeddings.bytes_to_floats (Embeddings.floats_to_bytes v ++ extra) = v := by
  induction v with
  | nil =>
    simpa [Embeddings.floats_to_bytes] using bytes_to_floats_short extra hex
  | cons w vs ih =>
    have hw : w < 2 ^ 32 := hv w (List.mem_cons_self w vs)
    have hvs : ∀ x ∈ vs, x < 2 ^ 32 := fun x hx => hv x (List.mem_cons_of_mem w hx)
    simp only [Embeddings.floats_to_bytes, List.flatMap_cons, Embeddings.f32_to_le_bytes,
      List.append_assoc, List.cons_append, List.nil_append]
    show Embeddings.bytes_to_floats (_ :: _ :: _ :: _ :: _) = _
    rw [Embeddings.bytes_to_floats]
    rw [f32_le_bytes_roundtrip w hw]
    have := ih hvs
    simp only [Embeddings.floats_to_bytes] at this
    simp [this]

/-- Witness for C10 at a concrete vector and a 1-byte trailing chunk. -/
theorem c10_floats_bytes_roundtrip_witness :
    ((∀ x ∈ [5, 4294967295], x < 2 ^ 32) ∧ ([7] : List Nat).length < 4)
      ∧ Embeddings.bytes_to_floats (Embeddings.floats_to_bytes [5, 4294967295] ++ [7])
          = [5, 4294967295] :=
  ⟨⟨by decide, by decide⟩,
   c10_floats_bytes_roundtrip [5, 4294967295] [7] (by decide) (by decide)⟩

/-- C1 counterexample: starting from a state with a working model loaded,
`load_model` at a nonexistent path does return the file-not-found error,
but the previously loaded model's status does NOT stay unchanged — the
model was already unloaded before the existence check, so afterwards
nothing is loaded.  This refutes the claim as stated at a concrete input. -/
theorem c1_failed_load_counterexample :
    Llm.is_loaded ⟨some ⟨7⟩, some "working.gguf", 4096⟩ = true
      ∧ (Llm.load_model (fun _ => false) (fun _ => .error "runtime")
          "/nonexistent/model.bin" 2048 ⟨some ⟨7⟩, some "working.gguf", 4096⟩).2
          = .error "Model file not found: /nonexistent/model.bin"
      ∧ Llm.is_loaded (Llm.load_model (fun _ => false) (fun _ => .error "runtime")
          "/nonexistent/model.bin" 2048 ⟨some ⟨7⟩, some "working.gguf", 4096⟩).1
          = false := by
  refine ⟨rfl, rfl, rfl⟩

/-- C1 (amended): `load_model` at a path the filesystem probe rejects
returns the file-not-found error, but only after having unloaded the
previously loaded model: the resulting state is exactly the unloaded one,
so a previously working model does not survive a failed load. -/
theorem c1_failed_load_unloads (fs : String → Bool)
    (ld : String → Except String Llm.LlamaModel) (path : String) (ctx : Nat)
    (s : Llm.LlmState) (h : fs path = false) :
    Llm.load_model fs ld path ctx s
        = (Llm.unload_model s, .error ("Model file not found: " ++ path))
      ∧ Llm.is_loaded (Llm.load_model fs ld path ctx s).1 = false := by
  constructor <;> simp [Llm.load_model, Llm.unload_model, Llm.is_loaded, h]

/-- Witness for C1's amended theorem at a concrete loaded state and path. -/
theorem c1_failed_load_unloads_witness :
    ((fun _ : String => false) "/nonexistent/model.bin" = false)
      ∧ (Llm.load_model (fun _ => false) (fun p => .error ("Failed to load model: " ++ p))
            "/nonexistent/model.bin" 2048 ⟨some ⟨7⟩, some "working.gguf", 4096⟩
            = (Llm.unload_model ⟨some ⟨7⟩, some "working.gguf", 4096⟩,
               .error ("Model file not found: " ++ "/nonexistent/model.bin"))
          ∧ Llm.is_loaded (Llm.load_model (fun _ => false)
              (fun p => .error ("Failed to load model: " ++ p))
              "/nonexistent/model.bin" 2048 ⟨some ⟨7⟩, some "working.gguf", 4096⟩).1
              = false) :=
  ⟨rfl, c1_failed_load_unloads (fun _ => false)
    (fun p => .error ("Failed to load model: " ++ p))
    "/nonexistent/model.bin" 2048 ⟨some ⟨7⟩, some "working.gguf", 4096⟩ rfl⟩

/-- The greedy argmax scan started from a candidate `b` returns some element
of `b :: l` whose logit dominates every logit in `b :: l`. -/
theorem greedyStep_foldl_argmax (l : List Llm.TokenData) (b : Llm.TokenData) :
    ∃ t : Llm.TokenData, l.foldl Llm.greedyStep (some b) = some t
      ∧ (t = b ∨ t ∈ l) ∧ b.logit ≤ t.logit ∧ ∀ c ∈ l, c.logit ≤ t.logit := by
  induction l generalizing b with
  | nil => exact ⟨b, rfl, Or.inl rfl, le_refl _, by simp⟩
  | cons c l ih =>
    by_cases hc : c.logit > b.logit
    · obtain ⟨t, hfold, hmem, hble, hall⟩ := ih c
      refine ⟨t, ?_, ?_, ?_, ?_⟩
      · simpa [Llm.greedyStep, hc] using hfold
      · rcases hmem with h | h
        · exact Or.inr (h ▸ List.mem_cons_self c l)
        · exact Or.inr (List.mem_cons_of_mem c h)
      · exact le_trans (le_of_lt hc) hble
      · intro d hd
        rcases List.mem_cons.mp hd with h | h
        · exact h ▸ hble
        · exact hall d h
    · obtain ⟨t, hfold, hmem, hble, hall⟩ := ih b
      refine ⟨t, ?_, ?_, hble, ?_⟩
      · simpa [Llm.greedyStep, hc] using hfold
      · rcases hmem with h | h
        · exact Or.inl h
        · exact Or.inr (List.mem_cons_of_mem c h)
      · intro d hd
        rcases List.mem_cons.mp hd with h | h
        · exact h ▸ le_trans (le_of_not_lt hc) hble
        · exact hall d h

/-- C8: when the sampling temperature is ≤ 0, `sample_with_temperature`
takes the greedy path: the result equals the greedy argmax, is independent
of the randomized sampler and its seed (so generation at temperature 0 is
deterministic for a fixed model and prompt), and on a non-empty candidate
set it is the id of a candidate whose logit — hence whose probability — is
maximal. -/
theorem c8_temp_zero_is_greedy (dist : Nat → List Llm.TokenData → Option Int)
    (seed seed' : Nat) (cands : List Llm.TokenData) (temp : ℚ) (h : temp ≤ 0) :
    Llm.sample_with_temperature dist seed cands temp = Llm.greedy_select cands
      ∧ Llm.sample_with_temperature dist seed cands temp
          = Llm.sample_with_temperature dist seed' cands temp
      ∧ (cands ≠ [] → ∃ t ∈ cands,
          Llm.sample_with_temperature dist seed cands temp = some t.id
            ∧ ∀ c ∈ cands, c.logit ≤ t.logit) := by
  refine ⟨by simp [Llm.sample_with_temperature, h], by simp [Llm.sample_with_temperature, h], ?_⟩
  intro hne
  rcases cands with _ | ⟨hd, tl⟩
  · exact absurd rfl hne
  · obtain ⟨t, hfold, hmem, hble, hall⟩ := greedyStep_foldl_argmax tl hd
    refine ⟨t, ?_, ?_, ?_⟩
    · rcases hmem with h' | h'
      · exact h' ▸ List.mem_cons_self hd tl
      · exact List.mem_cons_of_mem hd h'
    · simp [Llm.sample_with_temperature, h, Llm.greedy_select, Llm.greedyStep, hfold]
    · intro c hc
      rcases List.mem_cons.mp hc with h' | h'
      · exact h' ▸ hble
      · exact hall c h'

/-- Witness for C8 at temperature 0 and a concrete two-candidate set. -/
theorem c8_temp_zero_is_greedy_witness :
    ((0 : ℚ) ≤ 0)
      ∧ (Llm.sample_with_temperature (fun _ _ => none) 0 [⟨1, 2⟩, ⟨2, 5⟩] 0
            = Llm.greedy_select [⟨1, 2⟩, ⟨2, 5⟩]
          ∧ Llm.sample_with_temperature (fun _ _ => none) 0 [⟨1, 2⟩, ⟨2, 5⟩] 0
              = Llm.sample_with_temperature (fun _ _ => none) 1 [⟨1, 2⟩, ⟨2, 5⟩] 0
          ∧ (([⟨1, 2⟩, ⟨2, 5⟩] : List Llm.TokenData) ≠ [] → ∃ t ∈ ([⟨1, 2⟩, ⟨2, 5⟩] : List Llm.TokenData),
              Llm.sample_with_temperature (fun _ _ => none) 0 [⟨1, 2⟩, ⟨2, 5⟩] 0 = some t.id
                ∧ ∀ c ∈ ([⟨1, 2⟩, ⟨2, 5⟩] : List Llm.TokenData), c.logit ≤ t.logit)) :=
  ⟨by decide, c8_temp_zero_is_greedy (fun _ _ => none) 0 1 [⟨1, 2⟩, ⟨2, 5⟩] 0 (by decide)⟩

/-- After storing an embedding for some content, `has_embedding` finds it. -/
theorem has_embedding_after_store (db : List Embeddings.EmbRow) (st : String)
    (sid : Int) (content : String) (vector : List Nat) (now : Int) :
    Embeddings.has_embedding (Embeddings.store_embedding db st sid content vector now)
      st sid content = true := by
  simp [Embeddings.has_embedding, Embeddings.store_embedding, List.any_append]

/-- C6: indexing the same `("message", message_id, content)` twice embeds
exactly once.  Starting from a database with no embedding for this content,
a successful first `index_message` invokes the embedding computation once,
and the second call detects the unchanged fingerprint, performs no
re-embedding and no store (the database is returned unchanged, the
embed-invocation count is 0), and returns success. -/
theorem c6_index_message_idempotent
    (embed : String → Except String (List Nat)) (db : List Embeddings.EmbRow)
    (mid : Int) (content : String) (now now' : Int)
    (h0 : Embeddings.has_embedding db "message" mid content = false)
    (db₁ : List Embeddings.EmbRow)
    (h1 : (Embeddings.index_message embed db mid content now).1 = .ok db₁) :
    (Embeddings.index_message embed db mid content now).2 = 1
      ∧ Embeddings.index_message embed db₁ mid content now' = (.ok db₁, 0) := by
  unfold Embeddings.index_message at h1 ⊢
  rw [h0] at h1
  simp only [Bool.false_eq_true, if_false] at h1
  rcases he : embed content with e | vector
  · rw [he] at h1
    simp at h1
  · rw [he] at h1
    simp only at h1
    have hdb₁ : db₁ = Embeddings.store_embedding db "message" mid content vector now := by
      have := h1
      simp only [Except.ok.injEq] at this
      exact this.symm
    constructor
    · rw [h0]
      simp [he]
    · have hhas : Embeddings.has_embedding db₁ "message" mid content = true := by
        rw [hdb₁]; exact has_embedding_after_store db "message" mid content vector now
      rw [hhas]
      simp

/-- Witness for C6 at a concrete empty database and content. -/
theorem c6_index_message_idempotent_witness :
    (Embeddings.has_embedding [] "message" 1 "hi" = false
        ∧ (Embeddings.index_message (fun _ => .ok [1, 2]) [] 1 "hi" 0).1
            = .ok (Embeddings.store_embedding [] "message" 1 "hi" [1, 2] 0))
      ∧ ((Embeddings.index_message (fun _ => .ok [1, 2]) [] 1 "hi" 0).2 = 1
        ∧ Embeddings.index_message (fun _ => .ok [1, 2])
            (Embeddings.store_embedding [] "message" 1 "hi" [1, 2] 0) 1 "hi" 9
            = (.ok (Embeddings.store_embedding [] "message" 1 "hi" [1, 2] 0), 0)) :=
  ⟨⟨rfl, rfl⟩,
   c6_index_message_idempotent (fun _ => .ok [1, 2]) [] 1 "hi" 0 9 rfl
     (Embeddings.store_embedding [] "message" 1 "hi" [1, 2] 0) rfl⟩

/-- When every fallible runtime call of the loop body succeeds, the
generation loop can never produce an error result — in particular a sampler
failure (`rt.sample k = none`) only breaks the loop with success. -/
theorem genLoop_ok_of_runtime_ok {σ : Type} (rt : Llm.LlmRuntime)
    (cb : σ → String → σ × Bool)
    (hp : ∀ k t, ∃ s, rt.tokenToPiece k t = .ok s)
    (hb : ∀ k, rt.batchAddStep k = .ok ())
    (hd : ∀ k, rt.decodeStep k = .ok ()) :
    ∀ fuel k acc s, (Llm.genLoop rt cb fuel k acc s).2 = .ok () := by
  intro fuel
  induction fuel with
  | zero => intro k acc s; rfl
  | succ fuel ih =>
    intro k acc s
    cases hsample : rt.sample k with
    | none => simp [Llm.genLoop, hsample]
    | some tok =>
      by_cases heog : rt.isEog tok = true
      · simp [Llm.genLoop, hsample, heog]
      · obtain ⟨piece, hpiece⟩ := hp k tok
        simp only [Llm.genLoop, hsample, heog, hpiece, hb k, hd k,
          Bool.false_eq_true, if_false]
        repeat' split
        all_goals first
          | rfl
          | exact ih (k + 1) _ _

/-- C2 counterexample: with a runtime whose sampler fails at the very first
iteration (all other calls succeeding), `generate` ends the stream after
zero fragments — early, well before `max_tokens = 5` — yet the overall
result is `Ok(())`, not an error.  This refutes the claim that a mid-stream
sampling failure is reported as the overall (error) result of the call. -/
theorem c2_sampler_failure_counterexample :
    Llm.generate Llm.sampleFailRuntime true "p" 5
        (fun (l : List String) s => (l ++ [s], true)) []
      = ([], Except.ok ())
      ∧ ¬ ∃ e, (Llm.generate Llm.sampleFailRuntime true "p" 5
          (fun (l : List String) s => (l ++ [s], true)) []).2 = Except.error e := by
  constructor
  · rfl
  · rintro ⟨e, h⟩
    rw [show (Llm.generate Llm.sampleFailRuntime true "p" 5
        (fun (l : List String) s => (l ++ [s], true)) []).2 = Except.ok () from rfl] at h
    exact Except.noConfusion h

/-- C2 (amended): a sampler failure mid-stream terminates the stream early
but is NOT reported as the overall result — whenever every other runtime
call succeeds, `generate` returns `Ok(())` no matter what the sampler does
(including failing at any iteration); the failure is only logged.  Errors
can arise solely from tokenizer/runtime failures. -/
theorem c2_sampler_failure_silently_swallowed {σ : Type} (rt : Llm.LlmRuntime)
    (prompt : String) (max_tokens : Nat) (cb : σ → String → σ × Bool) (s₀ : σ)
    (toks : List Int)
    (hctx : rt.newContext = .ok ()) (htok : rt.strToToken prompt = .ok toks)
    (hne : toks ≠ []) (hbp : rt.batchAddPrompt = .ok ())
    (hdp : rt.decodePrompt = .ok ())
    (hp : ∀ k t, ∃ s, rt.tokenToPiece k t = .ok s)
    (hb : ∀ k, rt.batchAddStep k = .ok ())
    (hd : ∀ k, rt.decodeStep k = .ok ()) :
    (Llm.generate rt true prompt max_tokens cb s₀).2 = .ok () := by
  simp only [Llm.generate, hctx, htok, hbp, hdp, not_true, if_false, if_neg hne]
  · exact genLoop_ok_of_runtime_ok rt cb hp hb hd max_tokens 0 "" s₀

/-- Witness for C2's amended theorem: the sampler-failing runtime at a
concrete prompt. -/
theorem c2_sampler_failure_silently_swallowed_witness :
    ((∀ k t, ∃ s, Llm.sampleFailRuntime.tokenToPiece k t = .ok s)
        ∧ Llm.sampleFailRuntime.strToToken "p" = .ok [1] ∧ ([1] : List Int) ≠ [])
      ∧ (Llm.generate Llm.sampleFailRuntime true "p" 5
          (fun (l : List String) s => (l ++ [s], true)) []).2 = .ok () :=
  ⟨⟨fun _ _ => ⟨"x", rfl⟩, rfl, by decide⟩,
   c2_sampler_failure_silently_swallowed Llm.sampleFailRuntime "p" 5
     (fun (l : List String) s => (l ++ [s], true)) [] [1] rfl rfl (by decide)
     rfl rfl (fun _ _ => ⟨"x", rfl⟩) (fun _ => rfl) (fun _ => rfl)⟩

/-- The generation loop driven by the command's callback only ever appends
`token` events to the state's event list. -/
theorem genLoop_cmd_events (rt : Llm.LlmRuntime) (q : Nat → Bool) :
    ∀ fuel k acc (st : Commands.CmdState),
      ∃ frags : List String,
        (Llm.genLoop rt (Commands.cmdCallback q) fuel k acc st).1.events
          = st.events ++ frags.map Commands.Event.token := by
  intro fuel
  induction fuel with
  | zero => intro k acc st; exact ⟨[], by simp [Llm.genLoop]⟩
  | succ fuel ih =>
    intro k acc st
    cases hsample : rt.sample k with
    | none => exact ⟨[], by simp [Llm.genLoop, hsample]⟩
    | some tok =>
      by_cases heog : rt.isEog tok = true
      · exact ⟨[], by simp [Llm.genLoop, hsample, heog]⟩
      · cases hpiece : rt.tokenToPiece k tok with
        | error e => exact ⟨[], by simp [Llm.genLoop, hsample, heog, hpiece]⟩
        | ok piece =>
          by_cases hcl :
            Llm.STOP_SEQUENCES.foldl (fun acc seq => Llm.strReplaceAll acc seq "") piece = ""
          · by_cases hstop :
              (Llm.STOP_SEQUENCES.any fun seq => Llm.strContains (acc ++ piece) seq) = true
            · exact ⟨[], by simp [Llm.genLoop, hsample, heog, hpiece, hcl, hstop]⟩
            · cases hbs : rt.batchAddStep k with
              | error e =>
                exact ⟨[], by simp [Llm.genLoop, hsample, heog, hpiece, hcl, hstop, hbs]⟩
              | ok u =>
                cases hds : rt.decodeStep k with
                | error e =>
                  exact ⟨[], by
                    simp [Llm.genLoop, hsample, heog, hpiece, hcl, hstop, hbs, hds]⟩
                | ok v =>
                  obtain ⟨frags, hfr⟩ := ih (k + 1) (acc ++ piece) st
                  exact ⟨frags, by
                    simp [Llm.genLoop, hsample, heog, hpiece, hcl, hstop, hbs, hds, hfr]⟩
          · by_cases hf : (st.flag || q st.reads) = true
            · exact ⟨[], by
                simp [Llm.genLoop, hsample, heog, hpiece, hcl, Commands.cmdCallback, hf]⟩
            · by_cases hstop :
                (Llm.STOP_SEQUENCES.any fun seq => Llm.strContains (acc ++ piece) seq) = true
              · exact ⟨[Llm.STOP_SEQUENCES.foldl
                    (fun acc seq => Llm.strReplaceAll acc seq "") piece], by
                  simp [Llm.genLoop, hsample, heog, hpiece, hcl, Commands.cmdCallback, hf,
                    hstop]⟩
              · cases hbs : rt.batchAddStep k with
                | error e =>
                  exact ⟨[Llm.STOP_SEQUENCES.foldl
                      (fun acc seq => Llm.strReplaceAll acc seq "") piece], by
                    simp [Llm.genLoop, hsample, heog, hpiece, hcl, Commands.cmdCallback,
                      hf, hstop, hbs]⟩
                | ok u =>
                  cases hds : rt.decodeStep k with
                  | error e =>
                    exact ⟨[Llm.STOP_SEQUENCES.foldl
                        (fun acc seq => Llm.strReplaceAll acc seq "") piece], by
                      simp [Llm.genLoop, hsample, heog, hpiece, hcl, Commands.cmdCallback,
                        hf, hstop, hbs, hds]⟩
                  | ok v =>
                    have hf' : (st.flag || q st.reads) = false := by
                      simpa using hf
                    obtain ⟨frags, hfr⟩ := ih (k + 1) (acc ++ piece)
                      ⟨false,
                       st.events ++ [Commands.Event.token (Llm.STOP_SEQUENCES.foldl
                         (fun acc seq => Llm.strReplaceAll acc seq "") piece)],
                       st.reads + 1⟩
                    refine ⟨Llm.STOP_SEQUENCES.foldl
                        (fun acc seq => Llm.strReplaceAll acc seq "") piece :: frags, ?_⟩
                    simp only [Llm.genLoop, hsample, heog, hpiece, hcl, hbs, hds]
                    simp [Commands.cmdCallback, hf', hstop, hfr, List.append_assoc]

/-- A full `llm::generate` run driven by the command's fresh callback state
produces exactly a list of `token` events. -/
theorem generate_cmd_events (rt : Llm.LlmRuntime) (q : Nat → Bool) (loaded : Bool)
    (p : String) (maxT : Nat) (f₀ : Bool) :
    ∃ frags : List String,
      (Llm.generate rt loaded p maxT (Commands.cmdCallback q)
        (Commands.initCmdState f₀)).1.events = frags.map Commands.Event.token := by
  by_cases hl : loaded = true
  · cases hc : rt.newContext with
    | error e => exact ⟨[], by simp [Llm.generate, hl, hc, Commands.initCmdState]⟩
    | ok u =>
      cases ht : rt.strToToken p with
      | error e => exact ⟨[], by simp [Llm.generate, hl, hc, ht, Commands.initCmdState]⟩
      | ok toks =>
        by_cases htk : toks = []
        · exact ⟨[], by simp [Llm.generate, hl, hc, ht, htk, Commands.initCmdState]⟩
        · cases hbp : rt.batchAddPrompt with
          | error e =>
            exact ⟨[], by simp [Llm.generate, hl, hc, ht, htk, hbp, Commands.initCmdState]⟩
          | ok v =>
            cases hdp : rt.decodePrompt with
            | error e =>
              exact ⟨[], by
                simp [Llm.generate, hl, hc, ht, htk, hbp, hdp, Commands.initCmdState]⟩
            | ok w =>
              obtain ⟨frags, hfr⟩ := genLoop_cmd_events rt q maxT 0 ""
                (Commands.initCmdState f₀)
              exact ⟨frags, by
                simp only [Llm.generate, hl, hc, ht, htk, hbp, hdp]
                simpa [Commands.initCmdState] using hfr⟩
  · exact ⟨[], by simp [Llm.generate, hl, Commands.initCmdState]⟩

/-- C3: every run of the `generate` command emits exactly one terminal
`finished` event — the event sequence is precisely the emitted fragments
followed by a single final `finished` — regardless of whether the inner
generation succeeded, was cancelled or failed; and the command's result is
exactly the inner generation's result, returned only after the `finished`
event has been emitted (it is the last event of the sequence). -/
theorem c3_exactly_one_finished (rt : Llm.LlmRuntime) (q : Nat → Bool) (f₀ : Bool)
    (loaded : Bool) (sys : String) (hist : List Commands.HistoryMessage)
    (prompt : String) (maxT : Nat) :
    ∃ frags : List String,
      (Commands.command_generate rt q f₀ loaded sys hist prompt maxT).1
          = frags.map Commands.Event.token ++ [Commands.Event.finished]
        ∧ (Commands.command_generate rt q f₀ loaded sys hist prompt maxT).2
            = (Llm.generate rt loaded (Commands.chatml_prompt sys hist prompt) maxT
                (Commands.cmdCallback q) (Commands.initCmdState f₀)).2 := by
  obtain ⟨frags, hfr⟩ := generate_cmd_events rt q loaded
    (Commands.chatml_prompt sys hist prompt) maxT f₀
  refine ⟨frags, ?_, ?_⟩
  · unfold Commands.command_generate
    cases hres : (Llm.generate rt loaded (Commands.chatml_prompt sys hist prompt) maxT
        (Commands.cmdCallback q) (Commands.initCmdState f₀)).2 with
    | error e => simp [hres, hfr]
    | ok u => simp [hres, hfr]
  · unfold Commands.command_generate
    cases hres : (Llm.generate rt loaded (Commands.chatml_prompt sys hist prompt) maxT
        (Commands.cmdCallback q) (Commands.initCmdState f₀)).2 with
    | error e => simp [hres]
    | ok u => simp [hres]

/-- Once a stop request is pending by flag read `k` (`q k = true`), the
generation loop performs at most `k + 1` callback invocations in total and
emits at most `k - st.reads` further fragments: the invocation that observes
the flag emits nothing and is the last one. -/
theorem genLoop_stop_bound (rt : Llm.LlmRuntime) (q : Nat → Bool) (k : Nat)
    (hq : q k = true) :
    ∀ fuel kk acc (st : Commands.CmdState), st.reads ≤ k →
      (Llm.genLoop rt (Commands.cmdCallback q) fuel kk acc st).1.reads ≤ k + 1
        ∧ (Llm.genLoop rt (Commands.cmdCallback q) fuel kk acc st).1.events.length
            ≤ st.events.length + (k - st.reads) := by
  intro fuel
  induction fuel with
  | zero =>
    intro kk acc st hr
    refine ⟨?_, ?_⟩ <;> simp [Llm.genLoop] <;> omega
  | succ fuel ih =>
    intro kk acc st hr
    cases hsample : rt.sample kk with
    | none => refine ⟨?_, ?_⟩ <;> simp [Llm.genLoop, hsample] <;> omega
    | some tok =>
      by_cases heog : rt.isEog tok = true
      · refine ⟨?_, ?_⟩ <;> simp [Llm.genLoop, hsample, heog] <;> omega
      · cases hpiece : rt.tokenToPiece kk tok with
        | error e =>
          refine ⟨?_, ?_⟩ <;> simp [Llm.genLoop, hsample, heog, hpiece] <;> omega
        | ok piece =>
          by_cases hcl :
            Llm.STOP_SEQUENCES.foldl (fun acc seq => Llm.strReplaceAll acc seq "") piece = ""
          · by_cases hstop :
              (Llm.STOP_SEQUENCES.any fun seq => Llm.strContains (acc ++ piece) seq) = true
            · refine ⟨?_, ?_⟩ <;>
                simp [Llm.genLoop, hsample, heog, hpiece, hcl, hstop] <;> omega
            · cases hbs : rt.batchAddStep kk with
              | error e =>
                refine ⟨?_, ?_⟩ <;>
                  simp [Llm.genLoop, hsample, heog, hpiece, hcl, hstop, hbs] <;> omega
              | ok u =>
                cases hds : rt.decodeStep kk with
                | error e =>
                  refine ⟨?_, ?_⟩ <;>
                    simp [Llm.genLoop, hsample, heog, hpiece, hcl, hstop, hbs, hds] <;> omega
                | ok v =>
                  obtain ⟨h1, h2⟩ := ih (kk + 1) (acc ++ piece) st hr
                  refine ⟨?_, ?_⟩ <;>
                    simp only [Llm.genLoop, hsample, heog, hpiece, hcl, hbs, hds] <;>
                    simp [hstop, hcl] <;> [exact h1; exact h2]
          · by_cases hflag : (st.flag || q st.reads) = true
            · refine ⟨?_, ?_⟩ <;>
                simp [Llm.genLoop, hsample, heog, hpiece, hcl, Commands.cmdCallback,
                  hflag] <;> omega
            · have hf' : (st.flag || q st.reads) = false := by simpa using hflag
              have hqr : q st.reads = false := by
                rcases Bool.or_eq_false_iff.mp hf' with ⟨_, h⟩
                exact h
              have hlt : st.reads < k := by
                rcases Nat.lt_or_ge st.reads k with h | h
                · exact h
                · exfalso
                  have : st.reads = k := le_antisymm hr h
                  rw [this, hq] at hqr
                  exact Bool.noConfusion hqr
              by_cases hstop :
                (Llm.STOP_SEQUENCES.any fun seq => Llm.strContains (acc ++ piece) seq) = true
              · refine ⟨?_, ?_⟩ <;>
                  simp [Llm.genLoop, hsample, heog, hpiece, hcl, Commands.cmdCallback,
                    hf', hstop] <;> omega
              · cases hbs : rt.batchAddStep kk with
                | error e =>
                  refine ⟨?_, ?_⟩ <;>
                    simp [Llm.genLoop, hsample, heog, hpiece, hcl, Commands.cmdCallback,
                      hf', hstop, hbs] <;> omega
                | ok u =>
                  cases hds : rt.decodeStep kk with
                  | error e =>
                    refine ⟨?_, ?_⟩ <;>
                      simp [Llm.genLoop, hsample, heog, hpiece, hcl, Commands.cmdCallback,
                        hf', hstop, hbs, hds] <;> omega
                  | ok v =>
                    obtain ⟨h1, h2⟩ := ih (kk + 1) (acc ++ piece)
                      ⟨false,
                       st.events ++ [Commands.Event.token (Llm.STOP_SEQUENCES.foldl
                         (fun acc seq => Llm.strReplaceAll acc seq "") piece)],
                       st.reads + 1⟩ (by simpa using hlt)
                    simp only [List.length_append, List.length_cons, List.length_nil] at h2
                    constructor <;>
                      simp only [Llm.genLoop, hsample, heog, hpiece, hcl, hbs, hds] <;>
                      simp [Commands.cmdCallback, hf', hstop]
                    · exact h1
                    · exact le_trans h2 (by omega)

/-- The reads/fragments bound lifted to a full `llm::generate` run started
with a fresh command callback state. -/
theorem generate_stop_bound (rt : Llm.LlmRuntime) (q : Nat → Bool) (loaded : Bool)
    (p : String) (maxT : Nat) (f₀ : Bool) (k : Nat) (hq : q k = true) :
    (Llm.generate rt loaded p maxT (Commands.cmdCallback q)
        (Commands.initCmdState f₀)).1.reads ≤ k + 1
      ∧ (Llm.generate rt loaded p maxT (Commands.cmdCallback q)
          (Commands.initCmdState f₀)).1.events.length ≤ k := by
  by_cases hl : loaded = true
  · cases hc : rt.newContext with
    | error e =>
      refine ⟨?_, ?_⟩ <;> simp [Llm.generate, hl, hc, Commands.initCmdState]
    | ok u =>
      cases ht : rt.strToToken p with
      | error e =>
        refine ⟨?_, ?_⟩ <;> simp [Llm.generate, hl, hc, ht, Commands.initCmdState]
      | ok toks =>
        by_cases htk : toks = []
        · refine ⟨?_, ?_⟩ <;> simp [Llm.generate, hl, hc, ht, htk, Commands.initCmdState]
        · cases hbp : rt.batchAddPrompt with
          | error e =>
            refine ⟨?_, ?_⟩ <;>
              simp [Llm.generate, hl, hc, ht, htk, hbp, Commands.initCmdState]
          | ok v =>
            cases hdp : rt.decodePrompt with
            | error e =>
              refine ⟨?_, ?_⟩ <;>
                simp [Llm.generate, hl, hc, ht, htk, hbp, hdp, Commands.initCmdState]
            | ok w =>
              obtain ⟨h1, h2⟩ := genLoop_stop_bound rt q k hq maxT 0 ""
                (Commands.initCmdState f₀) (by simp [Commands.initCmdState])
              simp only [Commands.initCmdState, List.length_nil, Nat.zero_add,
                Nat.sub_zero] at h1 h2
              refine ⟨?_, ?_⟩ <;> simp only [Llm.generate, hl, hc, ht, htk, hbp, hdp] <;>
                simp [Commands.initCmdState]
              · exact h1
              · exact h2
  · refine ⟨?_, ?_⟩ <;> simp [Llm.generate, hl, Commands.initCmdState]

/-- C4: once the shared cancellation flag is set during a generation (a stop
request is pending at flag read `k`), the callback that observes it is the
last one invoked — the run performs at most `k + 1` invocations and emits at
most `k` fragments, so no fragment is emitted at or after the observing
invocation; the terminal `finished` event still fires as the last event; and
a new generation resets the flag: the command's behavior is independent of
the flag value a previous generation left behind. -/
theorem c4_cancellation_stops_stream (rt : Llm.LlmRuntime) (q : Nat → Bool)
    (k : Nat) (f₀ f₁ : Bool) (loaded : Bool) (sys : String)
    (hist : List Commands.HistoryMessage) (prompt : String) (maxT : Nat)
    (hq : q k = true) :
    ((Llm.generate rt loaded (Commands.chatml_prompt sys hist prompt) maxT
          (Commands.cmdCallback q) (Commands.initCmdState f₀)).1.reads ≤ k + 1
        ∧ (Llm.generate rt loaded (Commands.chatml_prompt sys hist prompt) maxT
            (Commands.cmdCallback q) (Commands.initCmdState f₀)).1.events.length ≤ k)
      ∧ (Commands.command_generate rt q f₀ loaded sys hist prompt maxT).1.getLast?
          = some Commands.Event.finished
      ∧ Commands.command_generate rt q f₀ loaded sys hist prompt maxT
          = Commands.command_generate rt q f₁ loaded sys hist prompt maxT := by
  refine ⟨generate_stop_bound rt q loaded (Commands.chatml_prompt sys hist prompt)
    maxT f₀ k hq, ?_, rfl⟩
  unfold Commands.command_generate
  cases hres : (Llm.generate rt loaded (Commands.chatml_prompt sys hist prompt) maxT
      (Commands.cmdCallback q) (Commands.initCmdState f₀)).2 with
  | error e => simp [hres]
  | ok u => simp [hres]

/-- Witness for C4 at the steadily-emitting runtime with a stop request
pending at the second flag read. -/
theorem c4_cancellation_stops_stream_witness :
    ((fun j : Nat => j == 1) 1 = true)
      ∧ (((Llm.generate Llm.steadyRuntime true
              (Commands.chatml_prompt "s" [] "p") 5
              (Commands.cmdCallback (fun j : Nat => j == 1))
              (Commands.initCmdState true)).1.reads ≤ 1 + 1
          ∧ (Llm.generate Llm.steadyRuntime true
              (Commands.chatml_prompt "s" [] "p") 5
              (Commands.cmdCallback (fun j : Nat => j == 1))
              (Commands.initCmdState true)).1.events.length ≤ 1)
        ∧ (Commands.command_generate Llm.steadyRuntime (fun j : Nat => j == 1) true
            true "s" [] "p" 5).1.getLast? = some Commands.Event.finished
        ∧ Commands.command_generate Llm.steadyRuntime (fun j : Nat => j == 1) true
            true "s" [] "p" 5
            = Commands.command_generate Llm.steadyRuntime (fun j : Nat => j == 1) false
                true "s" [] "p" 5) :=
  ⟨rfl, c4_cancellation_stops_stream Llm.steadyRuntime (fun j : Nat => j == 1) 1
    true false true "s" [] "p" 5 rfl⟩

/-- The dot product of a vector with itself is its sum of squares. -/
theorem zip_self_map_mul_sum (v : List ℝ) :
    ((v.zip v).map (fun p => p.1 * p.2)).sum = (v.map (fun x => x * x)).sum := by
  induction v with
  | nil => simp
  | cons x v ih => simp [ih]

/-- The dot product of a vector with its negation is minus its sum of squares. -/
theorem zip_neg_map_mul_sum (v : List ℝ) :
    ((v.zip (v.map fun x => -x)).map (fun p => p.1 * p.2)).sum
      = -((v.map (fun x => x * x)).sum) := by
  induction v with
  | nil => simp
  | cons x v ih =>
    simp [ih]
    ring

/-- Negating a vector preserves its sum of squares. -/
theorem sum_sq_map_neg (v : List ℝ) :
    ((v.map fun x => -x).map (fun x => x * x)).sum = (v.map (fun x => x * x)).sum := by
  induction v with
  | nil => simp
  | cons x v ih =>
    simp only [List.map_cons, List.sum_cons]
    rw [ih]
    ring

/-- A sum of squares is nonnegative. -/
theorem sum_sq_nonneg (v : List ℝ) : 0 ≤ (v.map (fun x => x * x)).sum := by
  refine List.sum_nonneg ?_
  intro y hy
  obtain ⟨x, _, rfl⟩ := List.mem_map.mp hy
  exact mul_self_nonneg x

/-- A sum of squares with one nonzero entry is positive. -/
theorem sum_sq_pos (v : List ℝ) (hv : ∃ x ∈ v, x ≠ 0) :
    0 < (v.map (fun x => x * x)).sum := by
  obtain ⟨x, hm, hne⟩ := hv
  have h1 : x * x ∈ v.map (fun x => x * x) := List.mem_map_of_mem _ hm
  have h2 : x * x ≤ (v.map (fun x => x * x)).sum := by
    refine List.single_le_sum ?_ _ h1
    intro y hy
    obtain ⟨z, _, rfl⟩ := List.mem_map.mp hy
    exact mul_self_nonneg z
  exact lt_of_lt_of_le (mul_self_pos.mpr hne) h2

/-- The cosine similarity of a vector with a nonzero entry with itself is 1. -/
theorem cosine_similarity_self (v : List ℝ) (hv : ∃ x ∈ v, x ≠ 0) :
    Embeddings.cosine_similarity v v = 1 := by
  have hne : v ≠ [] := by
    rintro rfl
    simp at hv
  have hS : 0 < (v.map (fun x => x * x)).sum := sum_sq_pos v hv
  have hsq : Real.sqrt ((v.map (fun x => x * x)).sum) ≠ 0 :=
    Real.sqrt_ne_zero'.mpr hS
  simp only [Embeddings.cosine_similarity]
  rw [if_neg (by simp [hne]), zip_self_map_mul_sum, if_neg (by simp [hsq])]
  rw [Real.mul_self_sqrt (le_of_lt hS), div_self (ne_of_gt hS)]

/-- The cosine similarity of a vector with a nonzero entry with its
negation is -1. -/
theorem cosine_similarity_neg_self (v : List ℝ) (hv : ∃ x ∈ v, x ≠ 0) :
    Embeddings.cosine_similarity v (v.map fun x => -x) = -1 := by
  have hne : v ≠ [] := by
    rintro rfl
    simp at hv
  have hS : 0 < (v.map (fun x => x * x)).sum := sum_sq_pos v hv
  have hsq : Real.sqrt ((v.map (fun x => x * x)).sum) ≠ 0 :=
    Real.sqrt_ne_zero'.mpr hS
  simp only [Embeddings.cosine_similarity]
  rw [if_neg (by simp [hne]), zip_neg_map_mul_sum, sum_sq_map_neg,
    if_neg (by simp [hsq])]
  rw [Real.mul_self_sqrt (le_of_lt hS), neg_div, div_self (ne_of_gt hS)]

/-- Cosine similarity of vectors of different lengths is 0. -/
theorem cosine_similarity_length_mismatch (a b : List ℝ) (h : a.length ≠ b.length) :
    Embeddings.cosine_similarity a b = 0 := by
  simp only [Embeddings.cosine_similarity]
  rw [if_pos (Or.inl h)]

/-- Cosine similarity with an all-zero left vector is 0. -/
theorem cosine_similarity_zero_left (a b : List ℝ) (ha : ∀ x ∈ a, x = 0) :
    Embeddings.cosine_similarity a b = 0 := by
  by_cases h1 : a.length ≠ b.length ∨ a = []
  · simp only [Embeddings.cosine_similarity]
    rw [if_pos h1]
  · have hz : (a.map (fun x => x * x)).sum = 0 := by
      refine List.sum_eq_zero ?_
      intro y hy
      obtain ⟨x, hx, rfl⟩ := List.mem_map.mp hy
      rw [ha x hx, mul_zero]
    simp only [Embeddings.cosine_similarity]
    rw [if_neg h1, if_pos (Or.inl (by rw [hz, Real.sqrt_zero]))]

/-- Cosine similarity with an all-zero right vector is 0. -/
theorem cosine_similarity_zero_right (a b : List ℝ) (hb : ∀ x ∈ b, x = 0) :
    Embeddings.cosine_similarity a b = 0 := by
  by_cases h1 : a.length ≠ b.length ∨ a = []
  · simp only [Embeddings.cosine_similarity]
    rw [if_pos h1]
  · have hz : (b.map (fun x => x * x)).sum = 0 := by
      refine List.sum_eq_zero ?_
      intro y hy
      obtain ⟨x, hx, rfl⟩ := List.mem_map.mp hy
      rw [hb x hx, mul_zero]
    simp only [Embeddings.cosine_similarity]
    rw [if_neg h1, if_pos (Or.inr (by rw [hz, Real.sqrt_zero]))]

/-- C7: `cosine_similarity` (f32 arithmetic idealized over ℝ) satisfies the
claimed algebra: similarity of a nonzero vector with itself is 1 and with
its negation is -1; the unit basis vectors `[1,0]` and `[0,1]` have
similarity 0; and for mismatched lengths or an all-zero vector (zero norm)
the result is the neutral 0.  The Lean embedding is a total function, so no
input can make it panic. -/
theorem c7_cosine_similarity_algebra :
    (∀ v : List ℝ, (∃ x ∈ v, x ≠ 0) →
        Embeddings.cosine_similarity v v = 1
          ∧ Embeddings.cosine_similarity v (v.map fun x => -x) = -1)
      ∧ Embeddings.cosine_similarity [1, 0] [0, 1] = 0
      ∧ (∀ a b : List ℝ, a.length ≠ b.length → Embeddings.cosine_similarity a b = 0)
      ∧ (∀ a b : List ℝ, (∀ x ∈ a, x = 0) → Embeddings.cosine_similarity a b = 0)
      ∧ (∀ a b : List ℝ, (∀ x ∈ b, x = 0) → Embeddings.cosine_similarity a b = 0) := by
  refine ⟨fun v hv => ⟨cosine_similarity_self v hv, cosine_similarity_neg_self v hv⟩,
    ?_, cosine_similarity_length_mismatch, cosine_similarity_zero_left,
    cosine_similarity_zero_right⟩
  simp only [Embeddings.cosine_similarity]
  norm_num

/-- Witness for C7 at the concrete vectors `[3,4]`, `[1,0]`/`[0,1]` and a
length-mismatched pair. -/
theorem c7_cosine_similarity_algebra_witness :
    (∃ x ∈ [(3 : ℝ), 4], x ≠ 0)
      ∧ (Embeddings.cosine_similarity [(3 : ℝ), 4] [3, 4] = 1
        ∧ Embeddings.cosine_similarity [(3 : ℝ), 4] ([3, 4].map fun x => -x) = -1)
      ∧ ([(0 : ℝ)].length ≠ ([1, 2] : List ℝ).length)
      ∧ Embeddings.cosine_similarity [(0 : ℝ)] [1, 2] = 0 :=
  have h : ∃ x ∈ [(3 : ℝ), 4], x ≠ 0 := ⟨3, by norm_num, by norm_num⟩
  ⟨h, c7_cosine_similarity_algebra.1 [3, 4] h,
   by norm_num,
   c7_cosine_similarity_algebra.2.2.1 [0] [1, 2] (by norm_num)⟩

/-- A truncated descending merge sort of search hits is sorted by
non-increasing similarity. -/
theorem take_mergeSort_desc_sorted (l : List Embeddings.SHit) (n : Nat) :
    List.Pairwise (fun a b : Embeddings.SHit => b.similarity ≤ a.similarity)
      ((l.mergeSort (fun a b => decide (b.similarity ≤ a.similarity))).take n) := by
  have htrans : ∀ a b c : Embeddings.SHit,
      decide (b.similarity ≤ a.similarity) = true →
      decide (c.similarity ≤ b.similarity) = true →
      decide (c.similarity ≤ a.similarity) = true := by
    intro a b c hab hbc
    simp only [decide_eq_true_eq] at *
    exact le_trans hbc hab
  have htotal : ∀ a b : Embeddings.SHit,
      (decide (b.similarity ≤ a.similarity) || decide (a.similarity ≤ b.similarity)) = true := by
    intro a b
    rcases le_total b.similarity a.similarity with h | h <;> simp [h]
  have hs := List.sorted_mergeSort htrans htotal l
  have hs' : List.Pairwise (fun a b : Embeddings.SHit => b.similarity ≤ a.similarity)
      (l.mergeSort (fun a b => decide (b.similarity ≤ a.similarity))) :=
    hs.imp (fun h => of_decide_eq_true h)
  exact hs'.sublist (List.take_sublist n _)

/-- Membership in the truncated sort implies membership in the input. -/
theorem mem_take_mergeSort (l : List Embeddings.SHit) (n : Nat)
    (h : Embeddings.SHit)
    (hm : h ∈ (l.mergeSort (fun a b => decide (b.similarity ≤ a.similarity))).take n) :
    h ∈ l := by
  have h1 : h ∈ l.mergeSort (fun a b => decide (b.similarity ≤ a.similarity)) :=
    List.mem_of_mem_take hm
  exact (List.mergeSort_perm l _).mem_iff.mp h1

/-- C5 (amended): for every stored record set, query vector, source filter,
`top_k` and `min_similarity`, the sequence returned by `semantic_search` is
sorted by descending — non-increasing, ties permitted — similarity, contains
no hit whose similarity is below `min_similarity`, and has length at most
`top_k`. -/
theorem c5_search_sorted_filtered_bounded (rows : List Embeddings.SRow)
    (qv : List ℝ) (st : Option String) (limit : Nat) (minsim : ℝ) :
    List.Pairwise (fun a b : Embeddings.SHit => b.similarity ≤ a.similarity)
        (Embeddings.semantic_search rows qv st limit minsim)
      ∧ (∀ h ∈ Embeddings.semantic_search rows qv st limit minsim,
          minsim ≤ h.similarity)
      ∧ (Embeddings.semantic_search rows qv st limit minsim).length ≤ limit := by
  refine ⟨?_, ?_, ?_⟩
  · simp only [Embeddings.semantic_search]
    exact take_mergeSort_desc_sorted _ _
  · intro h hm
    simp only [Embeddings.semantic_search] at hm
    have h1 := mem_take_mergeSort _ _ _ hm
    exact of_decide_eq_true (List.mem_filter.mp h1).2
  · simp only [Embeddings.semantic_search]
    exact List.length_take_le _ _

/-- C5 counterexample: with two stored records holding the same vector
`[1,0]` and the query `[1,0]`, both hits score similarity 1, so the
sequence returned by `semantic_search` contains equal adjacent similarities
and is NOT sorted by strictly descending similarity — refuting the claim
as stated at this concrete input (non-strict descending order does hold,
see the amended theorem). -/
theorem c5_strict_descending_counterexample :
    ¬ List.Pairwise (fun a b : Embeddings.SHit => b.similarity < a.similarity)
        (Embeddings.semantic_search
          [⟨1, "message", 1, [1, 0]⟩, ⟨2, "message", 2, [1, 0]⟩] [1, 0] none 5 0) := by
  intro hpair
  have hcos : Embeddings.cosine_similarity [(1 : ℝ), 0] [1, 0] = 1 :=
    cosine_similarity_self [1, 0] ⟨1, by norm_num, one_ne_zero⟩
  have hres : (([⟨1, "message", 1, [1, 0]⟩, ⟨2, "message", 2, [1, 0]⟩] :
        List Embeddings.SRow).map (fun r =>
          ({ id := r.id, source_type := r.source_type, source_id := r.source_id,
             similarity := Embeddings.cosine_similarity [1, 0] r.vector } :
            Embeddings.SHit))).filter
        (fun h => decide ((0 : ℝ) ≤ h.similarity))
      = [⟨1, "message", 1, (1 : ℝ)⟩, ⟨2, "message", 2, 1⟩] := by
    simp only [List.map_cons, List.map_nil, hcos]
    simp only [List.filter_cons, List.filter_nil]
    rw [if_pos (decide_eq_true (show (0 : ℝ) ≤ 1 by norm_num)),
      if_pos (decide_eq_true (show (0 : ℝ) ≤ 1 by norm_num))]
  have hlen : (Embeddings.semantic_search
      [⟨1, "message", 1, [1, 0]⟩, ⟨2, "message", 2, [1, 0]⟩] [1, 0] none 5 0).length
      = 2 := by
    simp only [Embeddings.semantic_search, hres]
    rw [List.length_take, (List.mergeSort_perm _ _).length_eq]
    simp
  have hmem : ∀ x ∈ Embeddings.semantic_search
      [⟨1, "message", 1, [1, 0]⟩, ⟨2, "message", 2, [1, 0]⟩] [1, 0] none 5 0,
      x.similarity = 1 := by
    intro x hx
    simp only [Embeddings.semantic_search, hres] at hx
    have hx2 := mem_take_mergeSort _ _ _ hx
    rcases List.mem_cons.mp hx2 with rfl | hx3
    · rfl
    · rcases List.mem_cons.mp hx3 with rfl | hx4
      · rfl
      · exact absurd hx4 (List.not_mem_nil x)
  obtain ⟨a, b, hab⟩ := List.length_eq_two.mp hlen
  rw [hab] at hpair
  have h1 : b.similarity < a.similarity :=
    (List.pairwise_cons.mp hpair).1 b (List.mem_singleton.mpr rfl)
  have ha : a.similarity = 1 := hmem a (by rw [hab]; simp)
  have hb : b.similarity = 1 := hmem b (by rw [hab]; simp)
  rw [ha, hb] at h1
  exact lt_irrefl _ h1

/-- A string with a nonempty right half of an append is nonempty. -/
theorem string_append_ne_empty_right (s t : String) (h : t ≠ "") : s ++ t ≠ "" := by
  intro he
  apply h
  have hd := congrArg String.data he
  rw [String.data_append] at hd
  have ht := List.append_eq_nil.mp hd
  cases t with
  | mk d => cases ht.2; rfl

/-- The assembled prompt decomposes into the base prompt, the fixed suffix
and the four optional sections, in that fixed order. -/
theorem build_decomposition (db : Commands.DbEnv) (base_prompt prompt : String)
    (session_id : Int) :
    Commands.build_enriched_system_prompt db base_prompt prompt session_id
      = base_prompt ++ Commands.SYSTEM_SUFFIX ++ Commands.factsSection db
        ++ Commands.semanticSection db prompt
        ++ Commands.keywordSection db prompt session_id
        ++ Commands.personaSection db := by
  simp only [Commands.build_enriched_system_prompt, Commands.factsSection,
    Commands.semanticSection, Commands.keywordSection, Commands.personaSection]
  repeat' split
  all_goals simp_all only [String.append_assoc, String.append_empty, List.isEmpty_iff,
    Bool.not_eq_true, ne_eq, ite_true, ite_false, eq_self_iff_true, if_true, if_false,
    List.isEmpty_nil, reduceCtorEq, Except.ok.injEq]

/-- The facts section is empty exactly when the memory read fails or yields
no rows. -/
theorem factsSection_empty_iff (db : Commands.DbEnv) :
    Commands.factsSection db = "" ↔
      ∀ ms, db.get_top_memories 5 = .ok ms → ms = [] := by
  unfold Commands.factsSection
  cases h : db.get_top_memories 5 with
  | error e => simp [h]
  | ok ms =>
    cases hm : ms.isEmpty with
    | true =>
      have : ms = [] := List.isEmpty_iff.mp hm
      simp [h, this]
    | false =>
      have hne : ms ≠ [] := by
        intro hh
        rw [hh] at hm
        exact Bool.noConfusion hm
      simp only [hm, Bool.false_eq_true, if_false]
      constructor
      · intro he
        exact absurd he (string_append_ne_empty_right _ _ (by decide))
      · intro hall
        exact absurd (hall ms rfl) hne

/-- The semantic section is empty exactly when either retrieval layer fails
or no hit passes the 0.5 display floor. -/
theorem semanticSection_empty_iff (db : Commands.DbEnv) (prompt : String) :
    Commands.semanticSection db prompt = "" ↔
      ∀ rs, db.find_rag_context prompt 5 = .ok (.ok rs) →
        Commands.ragRelevant rs = [] := by
  unfold Commands.semanticSection
  cases h : db.find_rag_context prompt 5 with
  | error e => simp [h]
  | ok inner =>
    cases inner with
    | error e2 => simp [h]
    | ok results =>
      cases hm : (Commands.ragRelevant results).isEmpty with
      | true =>
        have : Commands.ragRelevant results = [] := List.isEmpty_iff.mp hm
        simp [h, this]
      | false =>
        have hne : Commands.ragRelevant results ≠ [] := by
          intro hh
          rw [hh] at hm
          exact Bool.noConfusion hm
        simp only [hm, Bool.false_eq_true, if_false]
        constructor
        · intro he
          exact absurd he (string_append_ne_empty_right _ _ (by decide))
        · intro hall
          exact absurd (hall results rfl) hne

/-- The keyword-fallback section is empty exactly when there are no usable
keywords, the full-text search fails, or every hit is from the current
session. -/
theorem keywordSection_empty_iff (db : Commands.DbEnv) (prompt : String)
    (session_id : Int) :
    Commands.keywordSection db prompt session_id = "" ↔
      ∀ ms, Commands.promptKeywords prompt ≠ [] →
        db.search_all_messages
          (String.intercalate " OR " (Commands.promptKeywords prompt)) 3 = .ok ms →
        ms.filter (fun m => decide (m.session_id ≠ session_id)) = [] := by
  unfold Commands.keywordSection
  cases hk : (Commands.promptKeywords prompt).isEmpty with
  | true =>
    have : Commands.promptKeywords prompt = [] := List.isEmpty_iff.mp hk
    simp [this]
  | false =>
    have hkne : Commands.promptKeywords prompt ≠ [] := by
      intro hh
      rw [hh] at hk
      exact Bool.noConfusion hk
    simp only [hk, Bool.false_eq_true, if_false]
    cases h : db.search_all_messages
        (String.intercalate " OR " (Commands.promptKeywords prompt)) 3 with
    | error e => simp [h]
    | ok relevant =>
      cases hm : (relevant.filter (fun m => decide (m.session_id ≠ session_id))).isEmpty with
      | true =>
        have hemp : relevant.filter (fun m => decide (m.session_id ≠ session_id)) = [] :=
          List.isEmpty_iff.mp hm
        simp only [hm, eq_self_iff_true, if_true]
        constructor
        · intro _ ms _ hok
          injection hok with hh
          rw [← hh]
          exact hemp
        · intro _
          trivial
      | false =>
        have hne : relevant.filter (fun m => decide (m.session_id ≠ session_id)) ≠ [] := by
          intro hh
          rw [hh] at hm
          exact Bool.noConfusion hm
        simp only [hm, Bool.false_eq_true, if_false]
        constructor
        · intro he
          exact absurd he (string_append_ne_empty_right _ _ (by decide))
        · intro hall
          exact absurd (hall relevant hkne rfl) hne

/-- The persona section is empty exactly when no persona row is available. -/
theorem personaSection_empty_iff (db : Commands.DbEnv) :
    Commands.personaSection db = "" ↔
      ∀ p, db.get_user_persona ≠ .ok (some p) := by
  unfold Commands.personaSection
  cases h : db.get_user_persona with
  | error e => simp [h]
  | ok op =>
    cases op with
    | none => simp [h]
    | some p =>
      simp only [h]
      constructor
      · intro he
        exact absurd he (string_append_ne_empty_right _ _ (by decide))
      · intro hall
        exact absurd rfl (hall p)

/-- C9: context assembly is total and compositional: the enriched prompt is
exactly the base prompt, the fixed instruction suffix, and then the facts,
semantic, keyword-fallback and persona sections in that fixed order; each
section is empty (wholly omitted, header included) exactly when its data
source fails or yields no (post-filter) data, so a failing source never
aborts assembly or shifts the remaining sections; and when all four sources
are empty or failing the output is exactly the base prompt plus the fixed
suffix. -/
theorem c9_context_assembly_robust (db : Commands.DbEnv) (base_prompt prompt : String)
    (session_id : Int) :
    (Commands.build_enriched_system_prompt db base_prompt prompt session_id
        = base_prompt ++ Commands.SYSTEM_SUFFIX ++ Commands.factsSection db
          ++ Commands.semanticSection db prompt
          ++ Commands.keywordSection db prompt session_id
          ++ Commands.personaSection db)
      ∧ (Commands.factsSection db = "" ↔
          ∀ ms, db.get_top_memories 5 = .ok ms → ms = [])
      ∧ (Commands.semanticSection db prompt = "" ↔
          ∀ rs, db.find_rag_context prompt 5 = .ok (.ok rs) →
            Commands.ragRelevant rs = [])
      ∧ (Commands.keywordSection db prompt session_id = "" ↔
          ∀ ms, Commands.promptKeywords prompt ≠ [] →
            db.search_all_messages
              (String.intercalate " OR " (Commands.promptKeywords prompt)) 3 = .ok ms →
            ms.filter (fun m => decide (m.session_id ≠ session_id)) = [])
      ∧ (Commands.personaSection db = "" ↔
          ∀ p, db.get_user_persona ≠ .ok (some p))
      ∧ (Commands.factsSection db = "" → Commands.semanticSection db prompt = "" →
          Commands.keywordSection db prompt session_id = "" →
          Commands.personaSection db = "" →
          Commands.build_enriched_system_prompt db base_prompt prompt session_id
            = base_prompt ++ Commands.SYSTEM_SUFFIX) := by
  refine ⟨build_decomposition db base_prompt prompt session_id,
    factsSection_empty_iff db, semanticSection_empty_iff db prompt,
    keywordSection_empty_iff db prompt session_id, personaSection_empty_iff db, ?_⟩
  intro hf hs hk hp
  rw [build_decomposition db base_prompt prompt session_id, hf, hs, hk, hp,
    String.append_empty, String.append_empty, String.append_empty, String.append_empty]

/-- Witness for C9 at the all-empty database oracle: every section is
omitted and the assembled prompt is exactly the base plus the suffix. -/
theorem c9_context_assembly_robust_witness :
    (Commands.factsSection Commands.emptyDbEnv = ""
        ∧ Commands.semanticSection Commands.emptyDbEnv "q" = ""
        ∧ Commands.keywordSection Commands.emptyDbEnv "q" 1 = ""
        ∧ Commands.personaSection Commands.emptyDbEnv = "")
      ∧ Commands.build_enriched_system_prompt Commands.emptyDbEnv "BASE" "q" 1
          = "BASE" ++ Commands.SYSTEM_SUFFIX := by
  have hf : Commands.factsSection Commands.emptyDbEnv = "" := rfl
  have hs : Commands.semanticSection Commands.emptyDbEnv "q" = "" := rfl
  have hk : Commands.keywordSection Commands.emptyDbEnv "q" 1 = "" := by
    cases hc : (Commands.promptKeywords "q").isEmpty with
    | true => simp [Commands.keywordSection, hc]
    | false => simp [Commands.keywordSection, hc, Commands.emptyDbEnv]
  have hp : Commands.personaSection Commands.emptyDbEnv = "" := rfl
  exact ⟨⟨hf, hs, hk, hp⟩,
    (c9_context_assembly_robust Commands.emptyDbEnv "BASE" "q" 1).2.2.2.2.2 hf hs hk hp⟩
